import Mathlib

/-
Verification of the backlog-selection core of the Burndown-Agent repository
(src/burndown_server.py) against its specification.

The Python module is shallowly embedded: the network (Azure DevOps WIQL and
work-item REST endpoints consumed via `requests`) is modelled as an
environment `Env` mapping each request the code can issue to an abstract
response; every pure computation of the module is translated directly.
Python `None` returns are modelled with `Option`, raised exceptions with
`Except`, Python `str` values that the code inspects character by character
with `List Char`, and Python `set` membership with list membership.
-/

set_option maxRecDepth 8000

namespace Burndown

/-- A hydrated work item as consumed by `_get_burndown_tasks_impl`
(lines 196-200): `t['id']`, `t['fields'].get('System.Title')`,
`t['fields'].get('System.WorkItemType')`.  Absent fields are `none`
(the code substitutes the defaults 'Unknown' / 'Item' when rendering). -/
structure WorkItem where
  id : Nat
  title : Option String
  wtype : Option String
deriving DecidableEq

/-- A work-item reference returned by a WIQL query (`{'id': int, ...}`);
the code reads only `p['id']` (lines 148, 190). -/
structure PRef where
  id : Nat
deriving DecidableEq

/-- A row of the child query (line 153).  The code reads `c['id']` and
`c.get('parent') or c.get('System.Parent')` (lines 159-161); both parent
fields may be absent, modelled as `none`.  Ids are naturals, with `0`
playing the role of a Python-falsy integer. -/
structure CRef where
  id : Nat
  parentField : Option Nat
  systemParentField : Option Nat
deriving DecidableEq

/-- Outcome of one WIQL POST (lines 86-94): HTTP 200 with a `workItems`
list, a non-2xx status, or a raised exception inside the request. -/
inductive WiqlResp (α : Type) where
  | ok (workItems : List α)
  | httpErr
  | netErr
deriving DecidableEq

/-- Outcome of one batched GET of work items (lines 115-119): HTTP 200
with a `value` list, a non-2xx status, or a raised `requests.RequestException`. -/
inductive GetResp where
  | ok (value : List WorkItem)
  | httpErr
  | netErr
deriving DecidableEq

/-- The external Azure DevOps service, as seen through the three request
shapes the module issues: the open-items query (the WIQL text built at
line 139 and at line 188 is identical in both modes), the children query
keyed by the candidate parent-id list interpolated into the WIQL text
(line 153), and the batched GET keyed by the requested id chunk (line 114). -/
structure Env where
  openQuery : WiqlResp PRef
  childQuery : List Nat → WiqlResp CRef
  getResp : List Nat → GetResp

/-- `run_wiql` (lines 82-94).  On status 200 it returns the `workItems`
list; on a non-2xx status it prints and falls off the end of the function,
returning Python `None` (modelled as `none`); on an exception it returns
`[]`.  -/
def run_wiql {α : Type} : WiqlResp α → Option (List α)
  | WiqlResp.ok items => some items
  | WiqlResp.httpErr => none
  | WiqlResp.netErr => some []

/-- The chunking of `get_work_items` (line 111):
`for i in range(0, len(ids), 200): chunk = ids[i:i+200]`.
`range(0, n, 200)` has `(n + 199) / 200` elements `i = 200*k`, and the
slice `ids[i:i+200]` is `(ids.drop i).take 200`. -/
def chunk200 (ids : List Nat) : List (List Nat) :=
  (List.range ((ids.length + 199) / 200)).map (fun k => (ids.drop (200 * k)).take 200)

/-- The body of the chunk loop of `get_work_items` (lines 111-120),
instrumented with the list of GET requests actually issued (first
component).  A 200 response extends the accumulator, a non-2xx response
drops the chunk (line 119), and a `requests.RequestException` aborts the
loop and raises (line 121-122), modelled as `Except.error`. -/
def getChunksLoop (env : Env) : List (List Nat) → List (List Nat) × Except Unit (List WorkItem)
  | [] => ([], Except.ok [])
  | c :: rest =>
    match env.getResp c with
    | GetResp.ok items =>
      let r := getChunksLoop env rest
      (c :: r.1, r.2.map (fun more => items ++ more))
    | GetResp.httpErr =>
      let r := getChunksLoop env rest
      (c :: r.1, r.2)
    | GetResp.netErr => ([c], Except.error ())

/-- `get_work_items` (lines 96-122): empty input returns `[]` before any
request (line 106); otherwise the chunk loop runs.  The first component
is the list of issued GET requests, the second the returned list or the
raised exception. -/
def get_work_items (env : Env) (ids : List Nat) : List (List Nat) × Except Unit (List WorkItem) :=
  if ids = [] then ([], Except.ok [])
  else getChunksLoop env (chunk200 ids)

/-- `c.get('parent') or c.get('System.Parent')` (line 159): Python `or`
yields the first operand when it is truthy (present and nonzero),
otherwise the second operand. -/
def CRef.effParent (c : CRef) : Option Nat :=
  match c.parentField with
  | some p => if p = 0 then c.systemParentField else some p
  | none => c.systemParentField

/-- The parent id under which a child row is filed, if any: line 160
`if pid:` keeps only truthy (present, nonzero) values. -/
def CRef.pidOf (c : CRef) : Option Nat :=
  match c.effParent with
  | some p => if p = 0 then none else some p
  | none => none

/-- `child_id_map` (lines 155-161) as a lookup function: the dict built by
`child_id_map.setdefault(pid, []).append(c['id'])` maps `pid` to the ids
of the rows filed under `pid`, in row order; a key absent from the dict
corresponds to the empty list (`pid in child_id_map and child_id_map[pid]`
at line 166 is then exactly `child_id_map children pid ≠ []`).  The
`if children:` guard at line 156 is subsumed: a `None` or empty `children`
builds the empty map, as does this function applied to `[]`. -/
def child_id_map (children : List CRef) (pid : Nat) : List Nat :=
  (children.filter (fun c => c.pidOf == some pid)).map CRef.id

/-- The mutable loop state of the parent-aware branch: `tasks` (line 135)
and the set `seen_ids` (line 144), modelled as the list of ids added. -/
structure LoopState where
  tasks : List WorkItem
  seen : List Nat
deriving DecidableEq

/-- The inner item loop (lines 169-174 and, identically, 178-183):
`for item in items: if len(tasks) >= limit: break;
if item['id'] not in seen_ids: tasks.append(item); seen_ids.add(item['id'])`. -/
def addItems (limit : Nat) : LoopState → List WorkItem → LoopState
  | st, [] => st
  | st, item :: rest =>
    if limit ≤ st.tasks.length then st
    else if item.id ∈ st.seen then addItems limit st rest
    else addItems limit ⟨st.tasks ++ [item], item.id :: st.seen⟩ rest

/-- The outer candidate loop (lines 163-183): for each candidate parent id,
break once `limit` items are accumulated; if the child map lists children
for it, hydrate and add those, otherwise hydrate and add the parent itself.
A raised exception inside `get_work_items` propagates. -/
def parentLoop (env : Env) (cmap : Nat → List Nat) (limit : Nat) : LoopState → List Nat → Except Unit LoopState
  | st, [] => Except.ok st
  | st, pid :: rest =>
    if limit ≤ st.tasks.length then Except.ok st
    else if cmap pid ≠ [] then
      match (get_work_items env (cmap pid)).2 with
      | Except.error e => Except.error e
      | Except.ok child_items => parentLoop env cmap limit (addItems limit st child_items) rest
    else
      match (get_work_items env [pid]).2 with
      | Except.error e => Except.error e
      | Except.ok parent_items => parentLoop env cmap limit (addItems limit st parent_items) rest

/-- The candidate list of the parent-aware branch (lines 140-143):
`parents = run_wiql(pq)`, coerced to `[]` when not a list (the non-2xx
`None` case). -/
def candidateParents (env : Env) : List PRef :=
  match run_wiql env.openQuery with
  | some l => l
  | none => []

/-- `parent_ids` (lines 146-148): the first `min(len(parents), limit*3)`
candidates' ids.  The comprehension's `p['id'] not in seen_ids` filter is
vacuous because `seen_ids` is still empty at line 148. -/
def candidateIds (env : Env) (limit : Nat) : List Nat :=
  let parents := candidateParents env
  let max_parents := min parents.length (limit * 3)
  (parents.take max_parents).map PRef.id

/-- The rows of the children query (lines 153-154), as used to build the
child map: `children` is `None` (non-2xx) or a list; the `if children:`
guard (line 156) makes both `None` and `[]` produce the empty map, so both
collapse to `[]` here. -/
def childrenOf (env : Env) (limit : Nat) : List CRef :=
  match run_wiql (env.childQuery (candidateIds env limit)) with
  | some cs => cs
  | none => []

/-- The child map of one invocation (lines 155-161). -/
def cmapOf (env : Env) (limit : Nat) : Nat → List Nat :=
  child_id_map (childrenOf env limit)

/-- The parent-aware branch (lines 137-184): when `parent_ids` is empty the
`if parent_ids:` block is skipped and `tasks` stays `[]`; otherwise the
children query is issued and the candidate loop runs. -/
def parentMode (env : Env) (limit : Nat) : Except Unit (List WorkItem) :=
  let parent_ids := candidateIds env limit
  if parent_ids = [] then Except.ok []
  else (parentLoop env (cmapOf env limit) limit ⟨[], []⟩ parent_ids).map LoopState.tasks

/-- The direct branch (lines 186-190):
`refs = run_wiql(q); tasks.extend(get_work_items([r['id'] for r in refs[:limit]]))`.
When `run_wiql` returns `None` (non-2xx), `refs[:limit]` raises
`TypeError: 'NoneType' object is not subscriptable`, modelled as
`Except.error`; it is caught and re-raised by the handler at lines 204-206. -/
def directMode (env : Env) (limit : Nat) : Except Unit (List WorkItem) :=
  match run_wiql env.openQuery with
  | none => Except.error ()
  | some refs => (get_work_items env ((refs.take limit).map PRef.id)).2

/-- The faults `_get_burndown_tasks_impl` can raise to its caller: the
`ValueError` of line 129 (the spec's `InvalidArgument`), and the
`Exception(f"❌ Error fetching tasks: ...")` re-raised at line 206 after
any exception escapes the `try` body. -/
inductive ImplError where
  | invalidArgument
  | fetchError
deriving DecidableEq

/-- The three shapes of string `_get_burndown_tasks_impl` can return:
the configuration-error message of line 132, the backlog-clear message of
line 193, and the rendered report of lines 195-202 whose item list is
`tasks[:limit]`. -/
inductive BResult where
  | configError
  | backlogClear (project : List Char)
  | report (items : List WorkItem)
deriving DecidableEq

/-- Python falsiness of the `project_name` string at line 131
(`if not project_name:`): `None` or the empty string. -/
def pyFalsy : Option (List Char) → Bool
  | none => true
  | some s => s.isEmpty

/-- `_get_burndown_tasks_impl` (lines 125-206).  The `limit <= 0` check
precedes the `try` block; inside it, the missing-project check precedes
any query; the chosen branch computes `tasks`; an empty `tasks` yields the
backlog-clear message, otherwise the report renders `tasks[:limit]`.  Any
exception escaping the body is re-raised as `fetchError` (lines 204-206). -/
def _get_burndown_tasks_impl (env : Env) (project_name : Option (List Char)) (limit : Int) (prioritize_parents : Bool) : Except ImplError BResult :=
  if limit ≤ 0 then Except.error ImplError.invalidArgument
  else if pyFalsy project_name then Except.ok BResult.configError
  else
    let n := limit.toNat
    match (if prioritize_parents then parentMode env n else directMode env n) with
    | Except.error _ => Except.error ImplError.fetchError
    | Except.ok tasks =>
      if tasks = [] then Except.ok (BResult.backlogClear (project_name.getD []))
      else Except.ok (BResult.report (tasks.take n))

/-- The exact strings produced (lines 132, 193, 195-200). -/
def renderResult : BResult → String
  | BResult.configError => "❌ Error: Could not extract project name from AZURE_DEVOPS_ORG_URL Expected format: https://dev.azure.com/org/project or https://org.visualstudio.com/project"
  | BResult.backlogClear p => "✅ No active open tasks found in " ++ String.mk p ++ ". Backlog is clear!"
  | BResult.report items =>
    let header := "## 🚀 Burndown Mission (" ++ toString items.length ++ " items)\n"
    items.foldl (fun acc t =>
      acc ++ "- [ ] **" ++ (t.wtype.getD "Item") ++ " #" ++ toString t.id ++ "**: " ++ (t.title.getD "Unknown") ++ "\n") header

/-- The string-valued tool entry point: `_get_burndown_tasks_impl` composed
with the rendering of its result. -/
def get_burndown_tasks (env : Env) (project_name : Option (List Char)) (limit : Int) (prioritize_parents : Bool) : Except ImplError String :=
  (_get_burndown_tasks_impl env project_name limit prioritize_parents).map renderResult

/-- `str.rstrip('/')` (line 29). -/
def rstripSlash (s : List Char) : List Char :=
  (s.reverse.dropWhile (fun c => c = '/')).reverse

/-- Locates the first occurrence of `"://"`, returning the text before and
after it.  Helper for the model of the library call `urllib.parse.urlparse`
(line 29). -/
def findSchemeSplit : List Char → Option (List Char × List Char)
  | ':' :: '/' :: '/' :: rest => some ([], rest)
  | c :: rest => (findSchemeSplit rest).map (fun p => (c :: p.1, p.2))
  | [] => none

/-- RFC 3986 scheme syntax as enforced by `urllib.parse`: a letter followed
by letters, digits, `+`, `-`, `.`. -/
def validScheme (s : List Char) : Bool :=
  match s with
  | [] => false
  | c :: cs => c.isAlpha && cs.all (fun d => d.isAlphanum || d = '+' || d = '-' || d = '.')

/-- The components of `urllib.parse.urlparse` that `extract_project_name`
reads (netloc and path; scheme kept for completeness). -/
structure ParsedUrl where
  scheme : List Char
  netloc : List Char
  path : List Char

/-- Splits `netloc` (up to the first `/`) from `path` (the remainder,
keeping its leading `/`). -/
def splitNetloc (rest : List Char) : List Char × List Char :=
  (rest.takeWhile (fun c => c ≠ '/'), rest.dropWhile (fun c => c ≠ '/'))

/-- Parse of a URL with no scheme part: a leading `//` introduces a netloc,
otherwise everything is path. -/
def noSchemeParse (s : List Char) : ParsedUrl :=
  match s with
  | '/' :: '/' :: rest =>
    let np := splitNetloc rest
    ⟨[], np.1, np.2⟩
  | _ => ⟨[], [], s⟩

/-- Modelled library call: `urllib.parse.urlparse` (line 29), for URLs
without query or fragment components — the only shapes
`extract_project_name` distinguishes.  A `scheme://` head with a valid
scheme introduces a netloc; otherwise the no-scheme parse applies. -/
def urlparse (s : List Char) : ParsedUrl :=
  match findSchemeSplit s with
  | some (scheme, rest) =>
    if validScheme scheme then
      let np := splitNetloc rest
      ⟨scheme, np.1, np.2⟩
    else noSchemeParse s
  | none => noSchemeParse s

/-- `str.split('/')` (lines 32, 38): split on every separator, keeping
empty pieces (the caller filters them out, `if p`). -/
def splitSlash : List Char → List (List Char)
  | [] => [[]]
  | c :: rest =>
    if c = '/' then [] :: splitSlash rest
    else
      match splitSlash rest with
      | [] => [[c]]
      | p :: ps => (c :: p) :: ps

/-- `str.endswith` (lines 31, 37) on character lists. -/
def endsWithL (suffix : List Char) (s : List Char) : Bool :=
  decide (suffix.length ≤ s.length) && decide (s.drop (s.length - suffix.length) = suffix)

/-- Value of a hexadecimal digit, if any. -/
def hexDigitVal (c : Char) : Option Nat :=
  if '0' ≤ c ∧ c ≤ '9' then some (c.toNat - '0'.toNat)
  else if 'a' ≤ c ∧ c ≤ 'f' then some (c.toNat - 'a'.toNat + 10)
  else if 'A' ≤ c ∧ c ≤ 'F' then some (c.toNat - 'A'.toNat + 10)
  else none

/-- Modelled library call: `urllib.parse.unquote` (lines 35, 40) restricted
to single-byte escapes — a valid `%xx` escape decodes to the character with
that code, an invalid one is kept literally. -/
def unquote : List Char → List Char
  | '%' :: a :: b :: rest =>
    (match hexDigitVal a, hexDigitVal b with
     | some x, some y => Char.ofNat (16 * x + y) :: unquote rest
     | _, _ => '%' :: unquote (a :: b :: rest))
  | c :: rest => c :: unquote rest
  | [] => []

/-- `extract_project_name` (lines 20-45): falsy input yields `None`; the
URL is right-stripped of `/` and parsed; a netloc ending in
`dev.azure.com` needs at least two nonempty path parts and yields the
second, one ending in `visualstudio.com` needs at least one and yields the
first; anything else yields `None` (the `except` branch at lines 43-45 is
unreachable for the total functions modelled here). -/
def extract_project_name (ado_url : Option (List Char)) : Option (List Char) :=
  match ado_url with
  | none => none
  | some url =>
    if url.isEmpty then none
    else
      let parsed := urlparse (rstripSlash url)
      if endsWithL ("dev.azure.com".toList) parsed.netloc then
        let path_parts := (splitSlash parsed.path).filter (fun p => !p.isEmpty)
        if 2 ≤ path_parts.length then some (unquote (path_parts.getD 1 []))
        else none
      else if endsWithL ("visualstudio.com".toList) parsed.netloc then
        let path_parts := (splitSlash parsed.path).filter (fun p => !p.isEmpty)
        if 1 ≤ path_parts.length then some (unquote (path_parts.getD 0 []))
        else none
      else none

/-- Response-contract well-formedness of one GET response (spec section 4.2
and section 6): a successful batch GET returns one entry per successfully
resolved id of the request, in request order — its ids form a sublist of
the requested ids. -/
def GetResp.ResolvesFrom (req : List Nat) : GetResp → Prop
  | GetResp.ok items => List.Sublist (items.map WorkItem.id) req
  | _ => True

/-- Well-formedness of the environment against the service contract of
spec sections 4.2 and 6: a WIQL query lists each matching work item once
(distinct ids), and every batch GET resolves ids from its own request. -/
def Env.Wf (env : Env) : Prop :=
  (∀ refs, env.openQuery = WiqlResp.ok refs → (refs.map PRef.id).Nodup) ∧
  (∀ req, GetResp.ResolvesFrom req (env.getResp req))

/-- Absence of the two conditions that make the `try` body raise: no GET
request fails with a network exception, and in direct mode the open-items
query does not come back non-2xx (which would make `refs` Python `None`). -/
def Env.NoHardFault (env : Env) (prioritize_parents : Bool) : Prop :=
  (∀ req, env.getResp req ≠ GetResp.netErr) ∧
  (prioritize_parents = false → env.openQuery ≠ WiqlResp.httpErr)

/-- The invariant the mutable state of the candidate loop maintains: the
accumulated task ids are pairwise distinct, and `seen_ids` holds exactly
the ids of the accumulated tasks. -/
def Inv (st : LoopState) : Prop :=
  (st.tasks.map WorkItem.id).Nodup ∧ ∀ i, i ∈ st.seen ↔ i ∈ st.tasks.map WorkItem.id

/-- A work item hydrated with no optional fields, for concrete test
environments. -/
def mkItem (i : Nat) : WorkItem :=
  ⟨i, none, none⟩

/-- Concrete service: three open candidates; candidates 11 and 12 are open
children of candidate 2; every batch GET resolves all requested ids in
request order.  This realises the spec section 8 example
`[P1(no children), P2(children C1,C2), P3(no children)]` with
`P1 = 1, P2 = 2, P3 = 3, C1 = 11, C2 = 12`. -/
def envEx : Env where
  openQuery := WiqlResp.ok [⟨1⟩, ⟨2⟩, ⟨3⟩]
  childQuery := fun _ => WiqlResp.ok [⟨11, some 2, none⟩, ⟨12, some 2, none⟩]
  getResp := fun req => GetResp.ok (req.map mkItem)

/-- Concrete service in which every request comes back with a non-2xx
status. -/
def envBad : Env where
  openQuery := WiqlResp.httpErr
  childQuery := fun _ => WiqlResp.httpErr
  getResp := fun _ => GetResp.httpErr

/-- Concrete service in which every request raises a network exception
(total outage). -/
def envOut : Env where
  openQuery := WiqlResp.netErr
  childQuery := fun _ => WiqlResp.netErr
  getResp := fun _ => GetResp.netErr

/-- Concrete service with one childless open candidate whose hydration GET
raises a network exception. -/
def envHyd : Env where
  openQuery := WiqlResp.ok [⟨1⟩]
  childQuery := fun _ => WiqlResp.ok []
  getResp := fun _ => GetResp.netErr

theorem chunk200_nil : chunk200 [] = [] := rfl

theorem chunk200_cons (ids : List Nat) (h : ids ≠ []) :
    chunk200 ids = ids.take 200 :: chunk200 (ids.drop 200) := by
  have hlen : 0 < ids.length := List.length_pos.mpr h
  have hcount : (ids.length + 199) / 200 = ((ids.drop 200).length + 199) / 200 + 1 := by
    rw [List.length_drop]
    omega
  unfold chunk200
  rw [hcount, List.range_succ_eq_map, List.map_cons]
  simp only [Nat.mul_zero, List.drop_zero, List.map_map]
  congr 1
  apply List.map_congr_left
  intro k _
  simp only [Function.comp_apply, List.drop_drop]
  congr 2
  omega

theorem chunk200_flatten_aux (fuel : Nat) :
    ∀ ids : List Nat, ids.length ≤ fuel → (chunk200 ids).flatten = ids := by
  induction fuel with
  | zero =>
    intro ids h
    have hnil : ids = [] := List.eq_nil_of_length_eq_zero (Nat.le_zero.mp h)
    subst hnil
    rfl
  | succ m ih =>
    intro ids h
    by_cases hn : ids = []
    · subst hn; rfl
    · rw [chunk200_cons ids hn, List.flatten_cons,
        ih (ids.drop 200) (by rw [List.length_drop]; have := List.length_pos.mpr hn; omega),
        List.take_append_drop]

theorem chunk200_flatten (ids : List Nat) : (chunk200 ids).flatten = ids :=
  chunk200_flatten_aux ids.length ids le_rfl

theorem chunk200_length (ids : List Nat) :
    (chunk200 ids).length = (ids.length + 199) / 200 := by
  simp [chunk200]

theorem chunk200_chunk_le (ids : List Nat) (c : List Nat) (hc : c ∈ chunk200 ids) :
    c.length ≤ 200 := by
  simp only [chunk200, List.mem_map] at hc
  obtain ⟨k, _, hk⟩ := hc
  subst hk
  simp [List.length_take]

theorem getChunksLoop_all_ok (env : Env) (f : List Nat → List WorkItem) :
    ∀ cs : List (List Nat), (∀ c ∈ cs, env.getResp c = GetResp.ok (f c)) →
      getChunksLoop env cs = (cs, Except.ok (cs.map f).flatten) := by
  intro cs
  induction cs with
  | nil => intro _; rfl
  | cons c rest ih =>
    intro h
    have hc := h c (by simp)
    have hrest := ih (fun x hx => h x (by simp [hx]))
    simp only [getChunksLoop, hc, hrest, Except.map, List.map_cons, List.flatten_cons]

theorem get_work_items_all_ok (env : Env) (f : List Nat → List WorkItem) (ids : List Nat)
    (h : ∀ c ∈ chunk200 ids, env.getResp c = GetResp.ok (f c)) :
    get_work_items env ids = (chunk200 ids, Except.ok ((chunk200 ids).map f).flatten) := by
  unfold get_work_items
  by_cases hn : ids = []
  · subst hn; rfl
  · rw [if_neg hn, getChunksLoop_all_ok env f (chunk200 ids) h]

theorem getChunksLoop_ids_sublist (env : Env)
    (hwf : ∀ req, GetResp.ResolvesFrom req (env.getResp req)) :
    ∀ (cs : List (List Nat)) (items : List WorkItem),
      (getChunksLoop env cs).2 = Except.ok items →
      List.Sublist (items.map WorkItem.id) cs.flatten := by
  intro cs
  induction cs with
  | nil =>
    intro items h
    simp only [getChunksLoop] at h
    cases h
    exact List.nil_sublist _
  | cons c rest ih =>
    intro items h
    have hres := hwf c
    simp only [getChunksLoop] at h
    cases henv : env.getResp c with
    | ok v =>
      rw [henv] at h hres
      simp only [GetResp.ResolvesFrom] at hres
      cases hrest : (getChunksLoop env rest).2 with
      | error e => rw [hrest] at h; simp [Except.map] at h
      | ok more =>
        rw [hrest] at h
        simp only [Except.map] at h
        cases h
        rw [List.flatten_cons, List.map_append]
        exact List.Sublist.append hres (ih more hrest)
    | httpErr =>
      rw [henv] at h
      simp only at h
      rw [List.flatten_cons]
      exact List.sublist_append_of_sublist_right (ih items h)
    | netErr =>
      rw [henv] at h
      simp at h

theorem get_work_items_ids_sublist (env : Env)
    (hwf : ∀ req, GetResp.ResolvesFrom req (env.getResp req))
    (ids : List Nat) (items : List WorkItem)
    (h : (get_work_items env ids).2 = Except.ok items) :
    List.Sublist (items.map WorkItem.id) ids := by
  unfold get_work_items at h
  by_cases hn : ids = []
  · subst hn
    simp only [if_pos rfl] at h
    cases h
    exact List.nil_sublist _
  · rw [if_neg hn] at h
    have := getChunksLoop_ids_sublist env hwf (chunk200 ids) items h
    rwa [chunk200_flatten] at this

theorem getChunksLoop_ok_of_no_netErr (env : Env)
    (h : ∀ req, env.getResp req ≠ GetResp.netErr) :
    ∀ cs : List (List Nat), ∃ items, (getChunksLoop env cs).2 = Except.ok items := by
  intro cs
  induction cs with
  | nil => exact ⟨[], rfl⟩
  | cons c rest ih =>
    obtain ⟨items, hitems⟩ := ih
    cases henv : env.getResp c with
    | ok v =>
      exact ⟨v ++ items, by simp only [getChunksLoop, henv, hitems, Except.map]⟩
    | httpErr =>
      exact ⟨items, by simp only [getChunksLoop, henv, hitems]⟩
    | netErr => exact absurd henv (h c)

theorem get_work_items_ok_of_no_netErr (env : Env)
    (h : ∀ req, env.getResp req ≠ GetResp.netErr) (ids : List Nat) :
    ∃ items, (get_work_items env ids).2 = Except.ok items := by
  unfold get_work_items
  by_cases hn : ids = []
  · exact ⟨[], by rw [if_pos hn]⟩
  · rw [if_neg hn]
    exact getChunksLoop_ok_of_no_netErr env h (chunk200 ids)

theorem addItems_tasks_sublist (limit : Nat) :
    ∀ (its : List WorkItem) (st : LoopState),
      List.Sublist st.tasks (addItems limit st its).tasks := by
  intro its
  induction its with
  | nil => intro st; exact List.Sublist.refl _
  | cons item rest ih =>
    intro st
    unfold addItems
    by_cases hfull : limit ≤ st.tasks.length
    · rw [if_pos hfull]
    · rw [if_neg hfull]
      by_cases hseen : item.id ∈ st.seen
      · rw [if_pos hseen]; exact ih st
      · rw [if_neg hseen]
        exact List.Sublist.trans (List.sublist_append_left st.tasks [item])
          (ih ⟨st.tasks ++ [item], item.id :: st.seen⟩)

theorem addItems_len_le (limit : Nat) :
    ∀ (its : List WorkItem) (st : LoopState), st.tasks.length ≤ limit →
      (addItems limit st its).tasks.length ≤ limit := by
  intro its
  induction its with
  | nil => intro st h; exact h
  | cons item rest ih =>
    intro st h
    unfold addItems
    by_cases hfull : limit ≤ st.tasks.length
    · rw [if_pos hfull]; exact h
    · rw [if_neg hfull]
      by_cases hseen : item.id ∈ st.seen
      · rw [if_pos hseen]; exact ih st h
      · rw [if_neg hseen]
        exact ih _ (by simp only [List.length_append, List.length_cons,
          List.length_nil]; omega)

theorem addItems_inv (limit : Nat) :
    ∀ (its : List WorkItem) (st : LoopState), Inv st → Inv (addItems limit st its) := by
  intro its
  induction its with
  | nil => intro st h; exact h
  | cons item rest ih =>
    intro st h
    unfold addItems
    by_cases hfull : limit ≤ st.tasks.length
    · rw [if_pos hfull]; exact h
    · rw [if_neg hfull]
      by_cases hseen : item.id ∈ st.seen
      · rw [if_pos hseen]; exact ih st h
      · rw [if_neg hseen]
        apply ih
        obtain ⟨hnodup, hiff⟩ := h
        constructor
        · simp only [List.map_append, List.map_cons, List.map_nil]
          rw [List.nodup_append]
          refine ⟨hnodup, List.nodup_singleton _, ?_⟩
          intro a ha hb
          simp only [List.mem_singleton] at hb
          subst hb
          exact hseen ((hiff item.id).mpr ha)
        · intro i
          simp only [List.mem_cons, List.map_append, List.map_cons, List.map_nil,
            List.mem_append, List.mem_singleton, hiff i]
          tauto

theorem addItems_src (limit : Nat) :
    ∀ (its : List WorkItem) (st : LoopState) (x : WorkItem),
      x ∈ (addItems limit st its).tasks → x ∈ st.tasks ∨ x ∈ its := by
  intro its
  induction its with
  | nil => intro st x h; exact Or.inl h
  | cons item rest ih =>
    intro st x h
    unfold addItems at h
    by_cases hfull : limit ≤ st.tasks.length
    · rw [if_pos hfull] at h; exact Or.inl h
    · rw [if_neg hfull] at h
      by_cases hseen : item.id ∈ st.seen
      · rw [if_pos hseen] at h
        rcases ih st x h with h1 | h2
        · exact Or.inl h1
        · exact Or.inr (List.mem_cons_of_mem _ h2)
      · rw [if_neg hseen] at h
        rcases ih _ x h with h1 | h2
        · rcases List.mem_append.mp h1 with h3 | h4
          · exact Or.inl h3
          · simp only [List.mem_singleton] at h4
            subst h4
            exact Or.inr (List.mem_cons_self _ _)
        · exact Or.inr (List.mem_cons_of_mem _ h2)

theorem addItems_singleton_mem (limit : Nat) (st : LoopState) (it : WorkItem)
    (hroom : st.tasks.length < limit) (hinv : Inv st) :
    it.id ∈ (addItems limit st [it]).tasks.map WorkItem.id := by
  unfold addItems
  rw [if_neg (by omega)]
  by_cases hseen : it.id ∈ st.seen
  · rw [if_pos hseen]
    unfold addItems
    exact (hinv.2 it.id).mp hseen
  · rw [if_neg hseen]
    unfold addItems
    simp

theorem parentLoop_cons_eq (env : Env) (cmap : Nat → List Nat) (limit : Nat)
    (st : LoopState) (pid : Nat) (rest : List Nat) :
    parentLoop env cmap limit st (pid :: rest) =
      (if limit ≤ st.tasks.length then Except.ok st
       else if cmap pid ≠ [] then
         match (get_work_items env (cmap pid)).2 with
         | Except.error e => Except.error e
         | Except.ok child_items => parentLoop env cmap limit (addItems limit st child_items) rest
       else
         match (get_work_items env [pid]).2 with
         | Except.error e => Except.error e
         | Except.ok parent_items => parentLoop env cmap limit (addItems limit st parent_items) rest) := rfl

theorem parentLoop_saturated (env : Env) (cmap : Nat → List Nat) (limit : Nat)
    (st : LoopState) (l : List Nat) (h : limit ≤ st.tasks.length) :
    parentLoop env cmap limit st l = Except.ok st := by
  cases l with
  | nil => rfl
  | cons pid rest => rw [parentLoop_cons_eq, if_pos h]

theorem parentLoop_append (env : Env) (cmap : Nat → List Nat) (limit : Nat) :
    ∀ (l1 l2 : List Nat) (st : LoopState),
      parentLoop env cmap limit st (l1 ++ l2) =
        (parentLoop env cmap limit st l1).bind (fun st2 => parentLoop env cmap limit st2 l2) := by
  intro l1
  induction l1 with
  | nil => intro l2 st; rfl
  | cons pid rest ih =>
    intro l2 st
    rw [List.cons_append, parentLoop_cons_eq, parentLoop_cons_eq]
    by_cases hfull : limit ≤ st.tasks.length
    · rw [if_pos hfull, if_pos hfull]
      exact (parentLoop_saturated env cmap limit st l2 hfull).symm
    · rw [if_neg hfull, if_neg hfull]
      by_cases hch : cmap pid ≠ []
      · rw [if_pos hch, if_pos hch]
        cases hres : (get_work_items env (cmap pid)).2 with
        | error e => rfl
        | ok child_items => exact ih l2 (addItems limit st child_items)
      · rw [if_neg hch, if_neg hch]
        cases hres : (get_work_items env [pid]).2 with
        | error e => rfl
        | ok parent_items => exact ih l2 (addItems limit st parent_items)

theorem parentLoop_tasks_sublist (env : Env) (cmap : Nat → List Nat) (limit : Nat) :
    ∀ (l : List Nat) (st st2 : LoopState),
      parentLoop env cmap limit st l = Except.ok st2 →
      List.Sublist st.tasks st2.tasks := by
  intro l
  induction l with
  | nil =>
    intro st st2 h
    cases h
    exact List.Sublist.refl _
  | cons pid rest ih =>
    intro st st2 h
    unfold parentLoop at h
    by_cases hfull : limit ≤ st.tasks.length
    · rw [if_pos hfull] at h
      cases h
      exact List.Sublist.refl _
    · rw [if_neg hfull] at h
      by_cases hch : cmap pid ≠ []
      · rw [if_pos hch] at h
        cases hres : (get_work_items env (cmap pid)).2 with
        | error e => rw [hres] at h; cases h
        | ok child_items =>
          rw [hres] at h
          exact List.Sublist.trans (addItems_tasks_sublist limit child_items st) (ih _ st2 h)
      · rw [if_neg hch] at h
        cases hres : (get_work_items env [pid]).2 with
        | error e => rw [hres] at h; cases h
        | ok parent_items =>
          rw [hres] at h
          exact List.Sublist.trans (addItems_tasks_sublist limit parent_items st) (ih _ st2 h)

theorem parentLoop_inv (env : Env) (cmap : Nat → List Nat) (limit : Nat) :
    ∀ (l : List Nat) (st st2 : LoopState), Inv st →
      parentLoop env cmap limit st l = Except.ok st2 → Inv st2 := by
  intro l
  induction l with
  | nil =>
    intro st st2 hinv h
    cases h
    exact hinv
  | cons pid rest ih =>
    intro st st2 hinv h
    unfold parentLoop at h
    by_cases hfull : limit ≤ st.tasks.length
    · rw [if_pos hfull] at h
      cases h
      exact hinv
    · rw [if_neg hfull] at h
      by_cases hch : cmap pid ≠ []
      · rw [if_pos hch] at h
        cases hres : (get_work_items env (cmap pid)).2 with
        | error e => rw [hres] at h; cases h
        | ok child_items =>
          rw [hres] at h
          exact ih _ st2 (addItems_inv limit child_items st hinv) h
      · rw [if_neg hch] at h
        cases hres : (get_work_items env [pid]).2 with
        | error e => rw [hres] at h; cases h
        | ok parent_items =>
          rw [hres] at h
          exact ih _ st2 (addItems_inv limit parent_items st hinv) h

theorem parentLoop_len_le (env : Env) (cmap : Nat → List Nat) (limit : Nat) :
    ∀ (l : List Nat) (st st2 : LoopState), st.tasks.length ≤ limit →
      parentLoop env cmap limit st l = Except.ok st2 → st2.tasks.length ≤ limit := by
  intro l
  induction l with
  | nil =>
    intro st st2 hlen h
    cases h
    exact hlen
  | cons pid rest ih =>
    intro st st2 hlen h
    unfold parentLoop at h
    by_cases hfull : limit ≤ st.tasks.length
    · rw [if_pos hfull] at h
      cases h
      exact hlen
    · rw [if_neg hfull] at h
      by_cases hch : cmap pid ≠ []
      · rw [if_pos hch] at h
        cases hres : (get_work_items env (cmap pid)).2 with
        | error e => rw [hres] at h; cases h
        | ok child_items =>
          rw [hres] at h
          exact ih _ st2 (addItems_len_le limit child_items st hlen) h
      · rw [if_neg hch] at h
        cases hres : (get_work_items env [pid]).2 with
        | error e => rw [hres] at h; cases h
        | ok parent_items =>
          rw [hres] at h
          exact ih _ st2 (addItems_len_le limit parent_items st hlen) h

theorem parentLoop_src (env : Env) (cmap : Nat → List Nat) (limit : Nat) (S : Nat → Prop)
    (hwf : ∀ req, GetResp.ResolvesFrom req (env.getResp req)) :
    ∀ (l : List Nat) (st st2 : LoopState),
      (∀ pid ∈ l, (cmap pid ≠ [] → ∀ i ∈ cmap pid, S i) ∧ (cmap pid = [] → S pid)) →
      (∀ x ∈ st.tasks, S x.id) →
      parentLoop env cmap limit st l = Except.ok st2 →
      ∀ x ∈ st2.tasks, S x.id := by
  intro l
  induction l with
  | nil =>
    intro st st2 _ hst h
    cases h
    exact hst
  | cons pid rest ih =>
    intro st st2 hl hst h
    unfold parentLoop at h
    by_cases hfull : limit ≤ st.tasks.length
    · rw [if_pos hfull] at h
      cases h
      exact hst
    · rw [if_neg hfull] at h
      have hrest : ∀ q ∈ rest, (cmap q ≠ [] → ∀ i ∈ cmap q, S i) ∧ (cmap q = [] → S q) :=
        fun q hq => hl q (List.mem_cons_of_mem _ hq)
      by_cases hch : cmap pid ≠ []
      · rw [if_pos hch] at h
        cases hres : (get_work_items env (cmap pid)).2 with
        | error e => rw [hres] at h; cases h
        | ok child_items =>
          rw [hres] at h
          have hids := get_work_items_ids_sublist env hwf (cmap pid) child_items hres
          refine ih _ st2 hrest ?_ h
          intro x hx
          rcases addItems_src limit child_items st x hx with h1 | h2
          · exact hst x h1
          · exact (hl pid (List.mem_cons_self _ _)).1 hch x.id
              (hids.subset (List.mem_map_of_mem WorkItem.id h2))
      · rw [if_neg hch] at h
        push_neg at hch
        cases hres : (get_work_items env [pid]).2 with
        | error e => rw [hres] at h; cases h
        | ok parent_items =>
          rw [hres] at h
          have hids := get_work_items_ids_sublist env hwf [pid] parent_items hres
          refine ih _ st2 hrest ?_ h
          intro x hx
          rcases addItems_src limit parent_items st x hx with h1 | h2
          · exact hst x h1
          · have hmem : x.id ∈ [pid] := hids.subset (List.mem_map_of_mem WorkItem.id h2)
            simp only [List.mem_singleton] at hmem
            rw [hmem]
            exact (hl pid (List.mem_cons_self _ _)).2 hch

theorem parentLoop_ok_of_no_netErr (env : Env) (cmap : Nat → List Nat) (limit : Nat)
    (hnet : ∀ req, env.getResp req ≠ GetResp.netErr) :
    ∀ (l : List Nat) (st : LoopState),
      ∃ st2, parentLoop env cmap limit st l = Except.ok st2 := by
  intro l
  induction l with
  | nil => intro st; exact ⟨st, rfl⟩
  | cons pid rest ih =>
    intro st
    by_cases hfull : limit ≤ st.tasks.length
    · exact ⟨st, by unfold parentLoop; rw [if_pos hfull]⟩
    · by_cases hch : cmap pid ≠ []
      · obtain ⟨items, hitems⟩ := get_work_items_ok_of_no_netErr env hnet (cmap pid)
        obtain ⟨st2, hst2⟩ := ih (addItems limit st items)
        exact ⟨st2, by unfold parentLoop; rw [if_neg hfull, if_pos hch, hitems]; exact hst2⟩
      · obtain ⟨items, hitems⟩ := get_work_items_ok_of_no_netErr env hnet [pid]
        obtain ⟨st2, hst2⟩ := ih (addItems limit st items)
        exact ⟨st2, by unfold parentLoop; rw [if_neg hfull, if_neg hch, hitems]; exact hst2⟩

theorem inv_init : Inv ⟨[], []⟩ :=
  ⟨List.nodup_nil, fun i => by simp⟩

theorem impl_report_cases (env : Env) (pn : Option (List Char)) (limit : Int) (pp : Bool)
    (sel : List WorkItem)
    (h : _get_burndown_tasks_impl env pn limit pp = Except.ok (BResult.report sel)) :
    0 < limit ∧ pyFalsy pn = false ∧
      ∃ tasks, (if pp then parentMode env limit.toNat else directMode env limit.toNat) = Except.ok tasks ∧
        tasks ≠ [] ∧ sel = tasks.take limit.toNat := by
  simp only [_get_burndown_tasks_impl] at h
  by_cases hlim : limit ≤ 0
  · rw [if_pos hlim] at h; cases h
  · rw [if_neg hlim] at h
    by_cases hpn : pyFalsy pn
    · rw [if_pos hpn] at h; cases h
    · rw [if_neg hpn] at h
      refine ⟨by omega, by simpa using hpn, ?_⟩
      cases hbr : (if pp then parentMode env limit.toNat else directMode env limit.toNat) with
      | error e => rw [hbr] at h; cases h
      | ok tasks =>
        rw [hbr] at h
        dsimp only at h
        by_cases hts : tasks = []
        · rw [if_pos hts] at h; cases h
        · rw [if_neg hts] at h
          simp only [Except.ok.injEq, BResult.report.injEq] at h
          exact ⟨tasks, rfl, hts, h.symm⟩

theorem impl_report_intro (env : Env) (pn : Option (List Char)) (limit : Int) (pp : Bool)
    (tasks : List WorkItem)
    (hlim : 0 < limit) (hpn : pyFalsy pn = false)
    (hbr : (if pp then parentMode env limit.toNat else directMode env limit.toNat) = Except.ok tasks)
    (hne : tasks ≠ []) :
    _get_burndown_tasks_impl env pn limit pp = Except.ok (BResult.report (tasks.take limit.toNat)) := by
  simp only [_get_burndown_tasks_impl, if_neg (by omega : ¬limit ≤ 0), hpn, Bool.false_eq_true,
    if_false, hbr, if_neg hne]

theorem parentMode_ok_cases (env : Env) (n : Nat) (tasks : List WorkItem)
    (h : parentMode env n = Except.ok tasks) :
    (candidateIds env n = [] ∧ tasks = []) ∨
    (candidateIds env n ≠ [] ∧
      ∃ st2, parentLoop env (cmapOf env n) n ⟨[], []⟩ (candidateIds env n) = Except.ok st2 ∧
        tasks = st2.tasks) := by
  unfold parentMode at h
  by_cases hc : candidateIds env n = []
  · rw [if_pos hc] at h
    cases h
    exact Or.inl ⟨hc, rfl⟩
  · rw [if_neg hc] at h
    cases hloop : parentLoop env (cmapOf env n) n ⟨[], []⟩ (candidateIds env n) with
    | error e => rw [hloop] at h; cases h
    | ok st2 =>
      rw [hloop] at h
      simp only [Except.map, Except.ok.injEq] at h
      exact Or.inr ⟨hc, st2, rfl, h.symm⟩

/-- C1: for every `limit > 0` and either traversal mode, the item list
rendered by `_get_burndown_tasks_impl` (the `tasks[:limit]` slice of
lines 195-196) contains at most `limit` work items. -/
theorem c1_selection_at_most_limit (env : Env) (pn : Option (List Char)) (limit : Int)
    (pp : Bool) (sel : List WorkItem)
    (hpos : 0 < limit)
    (h : _get_burndown_tasks_impl env pn limit pp = Except.ok (BResult.report sel)) :
    (sel.length : Int) ≤ limit := by
  obtain ⟨_, _, tasks, _, _, hsel⟩ := impl_report_cases env pn limit pp sel h
  subst hsel
  have h1 : (tasks.take limit.toNat).length ≤ limit.toNat := by
    simp [List.length_take]
  omega

/-- C1 witness: at `limit = 2` in parent-aware mode against `envEx`, the
rendered selection is `[1, 11]` and its length is at most 2. -/
theorem c1_selection_at_most_limit_witness :
    (0 : Int) < 2 ∧ (([mkItem 1, mkItem 11] : List WorkItem).length : Int) ≤ 2 :=
  ⟨by norm_num,
    c1_selection_at_most_limit envEx (some ['p']) 2 true [mkItem 1, mkItem 11]
      (by norm_num) rfl⟩

/-- C5: code-bug evidence.  In direct mode a non-2xx WIQL response makes
`run_wiql` fall off its `else` branch and return Python `None`
(lines 90-91 print and return nothing); `refs[:limit]` then raises
`TypeError`, which the handler at lines 204-206 re-raises as a hard fault
— not the empty selection with the backlog-clear message the claim
describes.  By contrast a network exception (`envOut`, where `run_wiql`
does return `[]`, line 94) degrades to the backlog-clear message in both
modes, which shows the `None` fall-through is a slip rather than a policy. -/
theorem c5_non2xx_direct_mode_raises :
    _get_burndown_tasks_impl envBad (some ['p']) 1 false = Except.error ImplError.fetchError ∧
    _get_burndown_tasks_impl envOut (some ['p']) 1 false = Except.ok (BResult.backlogClear ['p']) ∧
    _get_burndown_tasks_impl envOut (some ['p']) 1 true = Except.ok (BResult.backlogClear ['p']) := by
  exact ⟨rfl, rfl, rfl⟩

/-- C7: for a non-empty id list whose chunk requests all succeed, batched
hydration issues exactly one GET per chunk — the request log equals the
chunk list — where the chunks number `⌈n/200⌉ = (n+199)/200`, each holds
at most 200 ids, and they partition the input in order; the returned list
is the concatenation of the per-chunk responses. -/
theorem c7_batched_hydration_chunks (env : Env) (ids : List Nat) (f : List Nat → List WorkItem)
    (_hne : ids ≠ [])
    (hok : ∀ c ∈ chunk200 ids, env.getResp c = GetResp.ok (f c)) :
    (get_work_items env ids).1 = chunk200 ids ∧
    (chunk200 ids).length = (ids.length + 199) / 200 ∧
    (∀ c ∈ chunk200 ids, c.length ≤ 200) ∧
    (chunk200 ids).flatten = ids ∧
    (get_work_items env ids).2 = Except.ok ((chunk200 ids).map f).flatten := by
  have h := get_work_items_all_ok env f ids hok
  exact ⟨by rw [h], chunk200_length ids, fun c hc => chunk200_chunk_le ids c hc,
    chunk200_flatten ids, by rw [h]⟩

/-- C7 witness: an input of 250 ids issues exactly 2 batched requests, of
200 and 50 ids. -/
theorem c7_batched_hydration_chunks_witness :
    ((List.range 250).map (fun i => i + 1) ≠ []) ∧
    ((get_work_items envEx ((List.range 250).map (fun i => i + 1))).1).map List.length = [200, 50] := by
  refine ⟨by decide, ?_⟩
  have h := c7_batched_hydration_chunks envEx ((List.range 250).map (fun i => i + 1))
    (fun c => c.map mkItem) (by decide) (fun c _ => rfl)
  rw [h.1]
  decide

/-- C9: when the project scope cannot be derived from the configured
organization URL (`extract_project_name` returns `None`), the selection
returns the `ConfigurationError`-class message of line 132 and issues no
work-item query: the result is the same for every environment, i.e. it
does not depend on any response the service could give. -/
theorem c9_config_error_no_query (url : List Char) (limit : Int) (pp : Bool)
    (hurl : extract_project_name (some url) = none) (hpos : 0 < limit) :
    ∀ env : Env,
      _get_burndown_tasks_impl env (extract_project_name (some url)) limit pp =
        Except.ok BResult.configError := by
  intro env
  rw [hurl]
  simp only [_get_burndown_tasks_impl, if_neg (by omega : ¬limit ≤ 0)]
  rfl

/-- C9 witness: the malformed URL `"notaurl"` yields no project scope, and
even against a service where every request fails non-2xx the result is the
configuration-error message, not a fault. -/
theorem c9_config_error_no_query_witness :
    extract_project_name (some "notaurl".toList) = none ∧
    _get_burndown_tasks_impl envBad (extract_project_name (some "notaurl".toList)) 1 false =
      Except.ok BResult.configError := by
  have hurl : extract_project_name (some "notaurl".toList) = none := by decide
  exact ⟨hurl, c9_config_error_no_query "notaurl".toList 1 false hurl (by norm_num) envBad⟩

/-- C10: the `limit <= 0` validation at line 129 precedes the `try` block
and hence the project-scope check of line 131: a non-positive limit raises
`InvalidArgument` for every environment and every project configuration,
including an underivable one, and the `ConfigurationError` message is
never returned in that case. -/
theorem c10_limit_check_precedes_scope_check (env : Env) (pn : Option (List Char))
    (limit : Int) (pp : Bool) (h : limit ≤ 0) :
    _get_burndown_tasks_impl env pn limit pp = Except.error ImplError.invalidArgument := by
  simp only [_get_burndown_tasks_impl, if_pos h]

/-- C10 witness: `limit = 0` with a missing project scope raises
`InvalidArgument` rather than returning the configuration message. -/
theorem c10_limit_check_precedes_scope_check_witness :
    (0 : Int) ≤ 0 ∧
    _get_burndown_tasks_impl envBad none 0 true = Except.error ImplError.invalidArgument :=
  ⟨le_rfl, c10_limit_check_precedes_scope_check envBad none 0 true le_rfl⟩

theorem map_mkItem_id : ∀ l : List Nat, (l.map mkItem).map WorkItem.id = l := by
  intro l
  induction l with
  | nil => rfl
  | cons a t ih => simp [mkItem, ih]

theorem envEx_wf : Env.Wf envEx := by
  refine ⟨?_, ?_⟩
  · intro refs hrefs
    have h2 : WiqlResp.ok (α := PRef) [⟨1⟩, ⟨2⟩, ⟨3⟩] = WiqlResp.ok refs := hrefs
    cases h2
    decide
  · intro req
    show List.Sublist ((req.map mkItem).map WorkItem.id) req
    rw [map_mkItem_id req]

/-- C2: for every `limit > 0` and either traversal mode, under the service
response contract (`Env.Wf`: a query lists each item once, a batch GET
resolves ids from its own request) the ids of the returned selection are
pairwise distinct.  In parent-aware mode this is the `seen_ids` invariant
of lines 144, 172-174, 181-183; in direct mode it is inherited from the
distinctness of the priority-query ids. -/
theorem c2_selection_ids_distinct (env : Env) (pn : Option (List Char)) (limit : Int)
    (pp : Bool) (sel : List WorkItem)
    (hwf : Env.Wf env) (_hpos : 0 < limit)
    (h : _get_burndown_tasks_impl env pn limit pp = Except.ok (BResult.report sel)) :
    (sel.map WorkItem.id).Nodup := by
  obtain ⟨-, -, tasks, hbr, -, hsel⟩ := impl_report_cases env pn limit pp sel h
  subst hsel
  have htasks : (tasks.map WorkItem.id).Nodup := by
    cases pp with
    | true =>
      rw [if_pos rfl] at hbr
      rcases parentMode_ok_cases env limit.toNat tasks hbr with ⟨-, hts⟩ | ⟨-, st2, hloop, hts⟩
      · subst hts; simp
      · subst hts
        exact (parentLoop_inv env (cmapOf env limit.toNat) limit.toNat
          (candidateIds env limit.toNat) ⟨[], []⟩ st2 inv_init hloop).1
    | false =>
      rw [if_neg (by decide : ¬(false = true))] at hbr
      unfold directMode at hbr
      cases hq : env.openQuery with
      | ok refs =>
        rw [hq] at hbr
        dsimp only [run_wiql] at hbr
        have hids := get_work_items_ids_sublist env hwf.2 _ tasks hbr
        have hnd : ((refs.take limit.toNat).map PRef.id).Nodup := by
          rw [List.map_take]
          exact List.Nodup.sublist (List.take_sublist _ _) (hwf.1 refs hq)
        exact List.Nodup.sublist hids hnd
      | httpErr =>
        rw [hq] at hbr
        dsimp only [run_wiql] at hbr
        cases hbr
      | netErr =>
        rw [hq] at hbr
        dsimp only [run_wiql] at hbr
        simp only [List.take_nil, List.map_nil] at hbr
        unfold get_work_items at hbr
        rw [if_pos rfl] at hbr
        cases hbr
        simp
  rw [List.map_take]
  exact List.Nodup.sublist (List.take_sublist _ _) htasks

/-- C2 witness: against `envEx` at `limit = 2` in parent-aware mode, the
selection `[1, 11]` has pairwise distinct ids. -/
theorem c2_selection_ids_distinct_witness :
    (0 : Int) < 2 ∧ (([mkItem 1, mkItem 11] : List WorkItem).map WorkItem.id).Nodup :=
  ⟨by norm_num,
    c2_selection_ids_distinct envEx (some ['p']) 2 true [mkItem 1, mkItem 11]
      envEx_wf (by norm_num) rfl⟩

/-- C3: in parent-aware mode, under the response contract, a candidate
parent with at least one open child in the child map is never added through
the no-children fallback of lines 175-183: its id can reach the selection
only by being listed as some candidate's child, so if it is not listed as
any candidate's child its id never appears in the selection at all.
(The code never adds such a parent through the fallback regardless of how
the limit cuts its children, which implies the claim's weaker
"unless exhausted by the limit" form.) -/
theorem c3_parent_with_children_never_fallback (env : Env) (pn : Option (List Char))
    (limit : Int) (pid : Nat) (sel : List WorkItem)
    (hwf : Env.Wf env)
    (_hcand : pid ∈ candidateIds env limit.toNat)
    (hch : cmapOf env limit.toNat pid ≠ [])
    (hnochild : ∀ q ∈ candidateIds env limit.toNat, pid ∉ cmapOf env limit.toNat q)
    (h : _get_burndown_tasks_impl env pn limit true = Except.ok (BResult.report sel)) :
    pid ∉ sel.map WorkItem.id := by
  obtain ⟨hpos, -, tasks, hbr, hne, hsel⟩ := impl_report_cases env pn limit true sel h
  rw [if_pos rfl] at hbr
  rcases parentMode_ok_cases env limit.toNat tasks hbr with ⟨-, hts⟩ | ⟨-, st2, hloop, hts⟩
  · subst hts; exact absurd rfl hne
  · subst hts
    subst hsel
    intro hmem
    rw [List.map_take] at hmem
    have hmem2 : pid ∈ st2.tasks.map WorkItem.id := (List.take_sublist _ _).subset hmem
    obtain ⟨x, hx, hxid⟩ := List.mem_map.mp hmem2
    have hsrc := parentLoop_src env (cmapOf env limit.toNat) limit.toNat
      (fun i => (∃ q ∈ candidateIds env limit.toNat, i ∈ cmapOf env limit.toNat q) ∨
        (∃ q ∈ candidateIds env limit.toNat, cmapOf env limit.toNat q = [] ∧ i = q))
      hwf.2 (candidateIds env limit.toNat) ⟨[], []⟩ st2
      (fun q hq => ⟨fun _ i hi => Or.inl ⟨q, hq, hi⟩, fun hq0 => Or.inr ⟨q, hq, hq0, rfl⟩⟩)
      (fun x hx => absurd hx (List.not_mem_nil x))
      hloop x hx
    rw [hxid] at hsrc
    rcases hsrc with ⟨q, hq, hin⟩ | ⟨q, _, hq0, heq⟩
    · exact hnochild q hq hin
    · rw [heq] at hch
      exact hch hq0

/-- C3 witness: the spec section 8 example.  Against `envEx` (candidates
`1` (no children), `2` (children `11`, `12`), `3` (no children)) with
`limit = 2`, candidate `2` has children, is nobody's child, and the
selection `[1, 11]` does not contain `2`. -/
theorem c3_parent_with_children_never_fallback_witness :
    cmapOf envEx 2 2 ≠ [] ∧ 2 ∉ (([mkItem 1, mkItem 11] : List WorkItem).map WorkItem.id) :=
  ⟨by decide,
    c3_parent_with_children_never_fallback envEx (some ['p']) 2 2 [mkItem 1, mkItem 11]
      envEx_wf (by decide) (by decide) (by decide) rfl⟩

/-- C4: in parent-aware mode, under the response contract, a candidate
parent with no open children in the child map that the loop reaches while
fewer than `limit` items are accumulated, and whose hydration resolves it,
has its id in the returned selection (lines 175-183). -/
theorem c4_childless_parent_included (env : Env) (pn : Option (List Char)) (limit : Int)
    (pid : Nat) (pre post : List Nat) (st : LoopState) (items : List WorkItem)
    (sel : List WorkItem)
    (hwf : Env.Wf env)
    (hsplit : candidateIds env limit.toNat = pre ++ pid :: post)
    (hnochild : cmapOf env limit.toNat pid = [])
    (hget : env.getResp [pid] = GetResp.ok items)
    (hpid : pid ∈ items.map WorkItem.id)
    (hpre : parentLoop env (cmapOf env limit.toNat) limit.toNat ⟨[], []⟩ pre = Except.ok st)
    (hroom : st.tasks.length < limit.toNat)
    (h : _get_burndown_tasks_impl env pn limit true = Except.ok (BResult.report sel)) :
    pid ∈ sel.map WorkItem.id := by
  obtain ⟨hpos, -, tasks, hbr, hne, hsel⟩ := impl_report_cases env pn limit true sel h
  rw [if_pos rfl] at hbr
  rcases parentMode_ok_cases env limit.toNat tasks hbr with ⟨-, hts⟩ | ⟨-, st2, hloop, hts⟩
  · subst hts; exact absurd rfl hne
  · subst hts
    subst hsel
    have hlen2 : st2.tasks.length ≤ limit.toNat :=
      parentLoop_len_le env (cmapOf env limit.toNat) limit.toNat
        (candidateIds env limit.toNat) ⟨[], []⟩ st2 (by simp) hloop
    have hinv : Inv st :=
      parentLoop_inv env (cmapOf env limit.toNat) limit.toNat pre ⟨[], []⟩ st inv_init hpre
    rw [hsplit, parentLoop_append, hpre] at hloop
    dsimp only [Except.bind] at hloop
    rw [parentLoop_cons_eq, if_neg (by omega), if_neg (not_not.mpr hnochild)] at hloop
    have hgw : (get_work_items env [pid]).2 = Except.ok items := by
      unfold get_work_items
      rw [if_neg (by simp)]
      have hck : chunk200 [pid] = [[pid]] := by
        rw [chunk200_cons [pid] (by simp), List.take_of_length_le (by simp),
          List.drop_eq_nil_of_le (by simp), chunk200_nil]
      rw [hck]
      simp only [getChunksLoop, hget, Except.map, List.append_nil]
    rw [hgw] at hloop
    dsimp only at hloop
    have hsub : List.Sublist (items.map WorkItem.id) [pid] := by
      have := hwf.2 [pid]
      rwa [hget] at this
    have hmapeq : items.map WorkItem.id = [pid] := by
      rcases List.sublist_singleton.mp hsub with h0 | h1
      · rw [h0] at hpid; cases hpid
      · exact h1
    have hlen1 : items.length = 1 := by
      rw [← List.length_map items WorkItem.id, hmapeq]
      rfl
    obtain ⟨it, hit⟩ := List.length_eq_one.mp hlen1
    subst hit
    have hitid : it.id = pid := by simpa using hmapeq
    have hstep : it.id ∈ (addItems limit.toNat st [it]).tasks.map WorkItem.id :=
      addItems_singleton_mem limit.toNat st it hroom hinv
    have hmono := parentLoop_tasks_sublist env (cmapOf env limit.toNat) limit.toNat post
      (addItems limit.toNat st [it]) st2 hloop
    obtain ⟨x, hx, hxid⟩ := List.mem_map.mp hstep
    have hx2 : x ∈ st2.tasks := hmono.subset hx
    rw [List.map_take, List.take_of_length_le (by simpa using hlen2)]
    rw [← hitid, ← hxid]
    exact List.mem_map_of_mem WorkItem.id hx2

/-- C4 witness: against `envEx` at `limit = 2`, candidate `1` has no
children, is reached first (empty prefix, zero accumulated items), its
hydration resolves it, and the selection `[1, 11]` contains it. -/
theorem c4_childless_parent_included_witness :
    cmapOf envEx 2 1 = [] ∧ 1 ∈ (([mkItem 1, mkItem 11] : List WorkItem).map WorkItem.id) :=
  ⟨by decide,
    c4_childless_parent_included envEx (some ['p']) 2 1 [] [2, 3] ⟨[], []⟩ [mkItem 1]
      [mkItem 1, mkItem 11] envEx_wf (by decide) (by decide) rfl (by decide) rfl
      (by decide) rfl⟩

/-- C6 counterexample: with `limit = 1 > 0`, a network exception during the
hydration GET of a childless candidate is re-raised by `get_work_items`
(lines 121-122) and again by the top-level handler (lines 204-206): the
selection raises a hard fault although `limit > 0`, refuting "raises if and
only if `limit <= 0`" and "never propagated as a raised fault". -/
theorem c6_counterexample_hydration_raises :
    ¬((1 : Int) ≤ 0) ∧
    _get_burndown_tasks_impl envHyd (some ['p']) 1 true = Except.error ImplError.fetchError :=
  ⟨by norm_num, rfl⟩

/-- C6 amended: the selection raises `InvalidArgument` exactly when
`limit <= 0`; in addition, unexpected runtime errors — a hydration network
failure, or a non-2xx response to the direct-mode query — are re-raised to
the caller as the wrapped '❌ Error fetching tasks' fault (lines 204-206).
In the absence of those two conditions, a positive limit never raises:
configuration errors and parent-mode query failures are returned as
message strings or degraded results. -/
theorem c6_amended_fault_propagation :
    (∀ (env : Env) (pn : Option (List Char)) (limit : Int) (pp : Bool),
      _get_burndown_tasks_impl env pn limit pp = Except.error ImplError.invalidArgument ↔
        limit ≤ 0) ∧
    (∀ (env : Env) (pn : Option (List Char)) (limit : Int) (pp : Bool),
      0 < limit → Env.NoHardFault env pp →
      ∀ e, _get_burndown_tasks_impl env pn limit pp ≠ Except.error e) := by
  constructor
  · intro env pn limit pp
    constructor
    · intro h
      by_contra hlim
      simp only [_get_burndown_tasks_impl, if_neg hlim] at h
      by_cases hpn : pyFalsy pn
      · rw [if_pos hpn] at h; cases h
      · rw [if_neg hpn] at h
        cases hbr : (if pp then parentMode env limit.toNat else directMode env limit.toNat) with
        | error e =>
          rw [hbr] at h
          dsimp only at h
          cases h
        | ok tasks =>
          rw [hbr] at h
          dsimp only at h
          by_cases hts : tasks = []
          · rw [if_pos hts] at h; cases h
          · rw [if_neg hts] at h; cases h
    · intro h
      simp only [_get_burndown_tasks_impl, if_pos h]
  · intro env pn limit pp hpos hnf e
    have hbm : ∃ tasks,
        (if pp then parentMode env limit.toNat else directMode env limit.toNat) =
          Except.ok tasks := by
      cases pp with
      | true =>
        rw [if_pos rfl]
        unfold parentMode
        by_cases hc : candidateIds env limit.toNat = []
        · exact ⟨[], by rw [if_pos hc]⟩
        · obtain ⟨st2, hst2⟩ := parentLoop_ok_of_no_netErr env (cmapOf env limit.toNat)
            limit.toNat hnf.1 (candidateIds env limit.toNat) ⟨[], []⟩
          exact ⟨st2.tasks, by rw [if_neg hc, hst2]; rfl⟩
      | false =>
        rw [if_neg (by decide : ¬(false = true))]
        unfold directMode
        cases hq : env.openQuery with
        | ok refs =>
          dsimp only [run_wiql]
          exact get_work_items_ok_of_no_netErr env hnf.1 _
        | httpErr => exact absurd hq (hnf.2 rfl)
        | netErr =>
          dsimp only [run_wiql]
          exact get_work_items_ok_of_no_netErr env hnf.1 _
    obtain ⟨tasks, htasks⟩ := hbm
    intro hcontra
    simp only [_get_burndown_tasks_impl, if_neg (by omega : ¬limit ≤ 0)] at hcontra
    by_cases hpn : pyFalsy pn
    · rw [if_pos hpn] at hcontra; cases hcontra
    · rw [if_neg hpn, htasks] at hcontra
      dsimp only at hcontra
      by_cases hts : tasks = []
      · rw [if_pos hts] at hcontra; cases hcontra
      · rw [if_neg hts] at hcontra; cases hcontra

/-- C6 amended witness: `limit = 0` raises `InvalidArgument`, and against
the fault-free service `envEx` a positive limit raises nothing. -/
theorem c6_amended_fault_propagation_witness :
    _get_burndown_tasks_impl envEx (some ['p']) 0 true = Except.error ImplError.invalidArgument ∧
    _get_burndown_tasks_impl envEx (some ['p']) 2 true ≠ Except.error ImplError.fetchError :=
  ⟨(c6_amended_fault_propagation.1 envEx (some ['p']) 0 true).mpr le_rfl,
    c6_amended_fault_propagation.2 envEx (some ['p']) 2 true (by norm_num)
      ⟨fun req hreq => GetResp.noConfusion hreq, fun hf => Bool.noConfusion hf⟩
      ImplError.fetchError⟩

/-- C8: in direct mode with `limit > 0`, when the open-items query returns
a non-empty reference list and every hydration chunk resolves exactly its
requested ids in order, the returned selection is the hydration of the
first `limit` references, with ids in the same relative order as the
underlying priority-ordered query (lines 186-190). -/
theorem c8_direct_mode_first_limit_in_order (env : Env) (pn : Option (List Char))
    (limit : Int) (refs : List PRef) (f : List Nat → List WorkItem)
    (hpos : 0 < limit) (hpn : pyFalsy pn = false)
    (hq : env.openQuery = WiqlResp.ok refs) (hrefs : refs ≠ [])
    (hok : ∀ c ∈ chunk200 ((refs.take limit.toNat).map PRef.id),
      env.getResp c = GetResp.ok (f c))
    (hres : ∀ c ∈ chunk200 ((refs.take limit.toNat).map PRef.id),
      (f c).map WorkItem.id = c) :
    ∃ sel, _get_burndown_tasks_impl env pn limit false = Except.ok (BResult.report sel) ∧
      sel.map WorkItem.id = (refs.take limit.toNat).map PRef.id := by
  have hn : 0 < limit.toNat := by omega
  have hgw := get_work_items_all_ok env f ((refs.take limit.toNat).map PRef.id) hok
  have hids : (((chunk200 ((refs.take limit.toNat).map PRef.id)).map f).flatten).map WorkItem.id =
      (refs.take limit.toNat).map PRef.id := by
    rw [List.map_flatten, List.map_map]
    have hcongr : (chunk200 ((refs.take limit.toNat).map PRef.id)).map (List.map WorkItem.id ∘ f) =
        (chunk200 ((refs.take limit.toNat).map PRef.id)).map id := by
      apply List.map_congr_left
      intro c hc
      exact hres c hc
    rw [hcongr, List.map_id, chunk200_flatten]
  have hdm : directMode env limit.toNat =
      Except.ok ((chunk200 ((refs.take limit.toNat).map PRef.id)).map f).flatten := by
    unfold directMode
    rw [hq]
    dsimp only [run_wiql]
    rw [hgw]
  have hreq_ne : (refs.take limit.toNat).map PRef.id ≠ [] := by
    intro hcon
    rcases List.map_eq_nil_iff.mp hcon with h1
    rcases List.take_eq_nil_iff.mp h1 with h2 | h3
    · omega
    · exact hrefs h3
  have hne : ((chunk200 ((refs.take limit.toNat).map PRef.id)).map f).flatten ≠ [] := by
    intro hcon
    rw [hcon] at hids
    exact hreq_ne hids.symm
  have hlen : (((chunk200 ((refs.take limit.toNat).map PRef.id)).map f).flatten).length ≤
      limit.toNat := by
    have h1 : (((chunk200 ((refs.take limit.toNat).map PRef.id)).map f).flatten).length =
        ((refs.take limit.toNat).map PRef.id).length := by
      rw [← List.length_map _ WorkItem.id, hids]
    rw [h1, List.length_map, List.length_take]
    omega
  refine ⟨(((chunk200 ((refs.take limit.toNat).map PRef.id)).map f).flatten).take limit.toNat,
    impl_report_intro env pn limit false _ hpos hpn
      (by rw [if_neg (by decide : ¬(false = true))]; exact hdm) hne, ?_⟩
  rw [List.take_of_length_le hlen]
  exact hids

/-- C8 witness: against `envEx` with candidates `[1, 2, 3]` and `limit = 2`
in direct mode, the selection's ids are exactly the first two reference
ids, in query order. -/
theorem c8_direct_mode_first_limit_in_order_witness :
    pyFalsy (some ['p']) = false ∧
    ∃ sel, _get_burndown_tasks_impl envEx (some ['p']) 2 false = Except.ok (BResult.report sel) ∧
      sel.map WorkItem.id = (([⟨1⟩, ⟨2⟩, ⟨3⟩] : List PRef).take (2 : Int).toNat).map PRef.id :=
  ⟨rfl,
    c8_direct_mode_first_limit_in_order envEx (some ['p']) 2 [⟨1⟩, ⟨2⟩, ⟨3⟩]
      (fun c => c.map mkItem) (by norm_num) rfl rfl (by decide)
      (fun c _ => rfl) (fun c _ => map_mkItem_id c)⟩

end Burndown
